import Mathlib

/-!
Verification of the snowflake-ng identifier generator (src/src/lib.rs).

Machine integers (Rust u64) are modelled as Nat; every operation that can
wrap in Rust takes an explicit `% 2 ^ 64`; the bitwise complement `!m` on a
u64 is modelled as `(2 ^ 64 - 1) ^^^ m`.  Rust's `(1u64 << k) - 1` masks are
written `2 ^ k - 1`.
-/

namespace SnowflakeNg

/-- Models fn fill_timestamp (src/src/lib.rs lines 140-145): mask the
timestamp to 41 bits, shift it left 22, clear bits 62-22 of sid, or it in. -/
def fill_timestamp (sid timestamp : Nat) : Nat :=
  (sid &&& ((2 ^ 64 - 1) ^^^ ((2 ^ 41 - 1) <<< 22))) |||
    ((timestamp &&& (2 ^ 41 - 1)) <<< 22)

/-- Models fn fill_identifier (src/src/lib.rs lines 148-153): mask the
identifier to 10 bits, shift it left 12, clear bits 21-12 of sid, or it in. -/
def fill_identifier (sid identifier : Nat) : Nat :=
  (sid &&& ((2 ^ 64 - 1) ^^^ ((2 ^ 10 - 1) <<< 12))) |||
    ((identifier &&& (2 ^ 10 - 1)) <<< 12)

/-- Models fn fill_sequence (src/src/lib.rs lines 156-162): mask the
sequence to 12 bits, clear bits 11-0 of sid, or it in (no shift needed). -/
def fill_sequence (sid sequence : Nat) : Nat :=
  (sid &&& ((2 ^ 64 - 1) ^^^ (2 ^ 12 - 1))) ||| (sequence &&& (2 ^ 12 - 1))

/-- Models pub fn filling (src/src/lib.rs lines 164-173): apply the three
fill functions in timestamp, identifier, sequence order. -/
def filling (dest timestamp identifier sequence : Nat) : Nat :=
  fill_sequence (fill_identifier (fill_timestamp dest timestamp) identifier)
    sequence

/-- Models const MAX_SEQUENCE: u16 = 0xFFF (src/src/lib.rs line 187). -/
def MAX_SEQUENCE : Nat := 0xFFF

/-- Outcome of one iteration of the loop in SnowflakeGenerator::assign.
In the sequential model the compare-exchange always succeeds, so an
iteration either commits a new state word and returns a Snowflake value,
or waits one millisecond leaving the state untouched (both the
sequence-exhausted arm and the clock-regression arm only Delay and retry,
writing nothing). -/
inductive AssignOutcome where
  | committed (newState sid : Nat)
  | wait
  deriving DecidableEq

/-- Models one iteration of the loop in SnowflakeGenerator::assign
(src/src/lib.rs lines 202-246) with the compare-exchange succeeding.
`identifier` is the configured cfg.identifier, `state` the current value of
the atomic timestamp_sequence word, `now` the value returned by
provider.timestamp().  current_timestamp = state >> 16,
current_sequence = state & 0xFFFF; the three match arms on
current_timestamp.cmp(&now) become the if-chain below.  Rust's
`timestamp << 16` on u64 wraps, hence the explicit `% 2 ^ 64`. -/
def assignIter (identifier state now : Nat) : AssignOutcome :=
  if state >>> 16 < now then
    AssignOutcome.committed ((now <<< 16) % 2 ^ 64)
      (fill_sequence (fill_identifier (fill_timestamp 0 now) identifier) 0)
  else if state >>> 16 = now then
    if MAX_SEQUENCE ≤ state &&& 0xFFFF then
      AssignOutcome.wait
    else
      AssignOutcome.committed
        (((now <<< 16) % 2 ^ 64) ||| ((state &&& 0xFFFF) + 1))
        (fill_sequence (fill_identifier (fill_timestamp 0 now) identifier)
          ((state &&& 0xFFFF) + 1))
  else
    AssignOutcome.wait

/-- Sequential composition of completed assign calls: starting from state
word `state`, perform one successful assign per element of the list, the
element being the provider timestamp observed at the committing iteration
(wait iterations never change the state, so a completed call is determined
by its committing iteration).  Returns the final state word and the list of
issued Snowflake values, or none if some call's committing iteration is
impossible (that call would wait instead of committing). -/
def runAssigns (identifier : Nat) : Nat → List Nat → Option (Nat × List Nat)
  | state, [] => some (state, [])
  | state, now :: rest =>
    match assignIter identifier state now with
    | AssignOutcome.committed s2 sid =>
      match runAssigns identifier s2 rest with
      | some (sf, sids) => some (sf, sid :: sids)
      | none => none
    | AssignOutcome.wait => none

/-- States of the timestamp_sequence word reachable from the initial value 0
(SnowflakeGenerator::with_cfg and Default both start at AtomicU64::new(0))
by successful compare-exchanges of assign, for any provider behaviour. -/
inductive Reachable (identifier : Nat) : Nat → Prop where
  | init : Reachable identifier 0
  | step {s now s2 sid : Nat} : Reachable identifier s → now < 2 ^ 64 →
      assignIter identifier s now = AssignOutcome.committed s2 sid →
      Reachable identifier s2

/-! Helper lemmas about the bit manipulations. -/

/-- Anding a 64-bit word with the complement of a contiguous mask of k bits
starting at bit lo clears exactly those bits, leaving the high and low
parts. -/
theorem and_comp_mid (x lo k : Nat) (hx : x < 2 ^ 64) (h : lo + k ≤ 64) :
    x &&& ((2 ^ 64 - 1) ^^^ ((2 ^ k - 1) <<< lo)) =
      2 ^ (lo + k) * (x / 2 ^ (lo + k)) + x % 2 ^ lo := by
  have hmod : x % 2 ^ lo < 2 ^ (lo + k) :=
    lt_of_lt_of_le (Nat.mod_lt x (Nat.two_pow_pos lo))
      (Nat.pow_le_pow_right (by norm_num) (Nat.le_add_right lo k))
  apply Nat.eq_of_testBit_eq
  intro j
  rw [Nat.testBit_mul_pow_two_add _ hmod]
  rw [show x / 2 ^ (lo + k) = x >>> (lo + k) from
    (Nat.shiftRight_eq_div_pow x (lo + k)).symm]
  simp only [Nat.testBit_and, Nat.testBit_xor, Nat.testBit_shiftLeft,
    Nat.testBit_two_pow_sub_one, Nat.testBit_mod_two_pow,
    Nat.testBit_shiftRight]
  rcases Nat.lt_or_ge j lo with h1 | h1
  · have h2 : j < lo + k := by omega
    have h3 : j < 64 := by omega
    have h4 : ¬ lo ≤ j := by omega
    simp [h1, h2, h3, h4]
  · rcases Nat.lt_or_ge j (lo + k) with h2 | h2
    · have h3 : j < 64 := by omega
      have h4 : j - lo < k := by omega
      have h5 : ¬ j < lo := by omega
      simp [h1, h2, h3, h4, h5]
    · have h5 : ¬ j < lo + k := by omega
      have h6 : lo + k + (j - (lo + k)) = j := by omega
      have h9 : ¬ j - lo < k := by omega
      rcases Nat.lt_or_ge j 64 with h7 | h7
      · simp [h1, h5, h6, h7, h9]
      · have h8 : ¬ j < 64 := by omega
        have hxj : x.testBit j = false :=
          Nat.testBit_lt_two_pow
            (lt_of_lt_of_le hx (Nat.pow_le_pow_right (by norm_num) h7))
        simp [h5, h6, h8, h9, hxj]

/-- Oring two words with disjoint supports (one a multiple of 2 ^ n, the
other below 2 ^ n) is addition. -/
theorem or_disjoint_add (a b n : Nat) (ha : a % 2 ^ n = 0) (hb : b < 2 ^ n) :
    a ||| b = a + b := by
  have h1 := Nat.div_add_mod a (2 ^ n)
  rw [ha, Nat.add_zero] at h1
  calc a ||| b = 2 ^ n * (a / 2 ^ n) ||| b := by rw [h1]
    _ = 2 ^ n * (a / 2 ^ n) + b := (Nat.mul_add_lt_is_or hb _).symm
    _ = a + b := by rw [h1]

/-- Arithmetic characterisation of fill_timestamp on a 64-bit word: bit 63
and bits 21-0 of sid survive, bits 62-22 are replaced by the truncated
timestamp. -/
theorem fill_timestamp_char (sid t : Nat) (h : sid < 2 ^ 64) :
    fill_timestamp sid t =
      2 ^ 63 * (sid / 2 ^ 63) + (t % 2 ^ 41) * 2 ^ 22 + sid % 2 ^ 22 := by
  unfold fill_timestamp
  rw [and_comp_mid sid 22 41 h (by norm_num)]
  rw [Nat.and_pow_two_sub_one_eq_mod, Nat.shiftLeft_eq]
  simp only [Nat.reduceAdd]
  have hhi : 2 ^ 63 * (sid / 2 ^ 63) % 2 ^ 22 = 0 := by
    have e : (2 : Nat) ^ 63 = 2 ^ 22 * 2 ^ 41 := by norm_num
    rw [e, Nat.mul_assoc]
    exact Nat.mul_mod_right _ _
  have hlo : sid % 2 ^ 22 < 2 ^ 22 := Nat.mod_lt sid (Nat.two_pow_pos 22)
  have hmid0 : (t % 2 ^ 41) * 2 ^ 22 % 2 ^ 22 = 0 := Nat.mul_mod_left _ _
  have hmt : t % 2 ^ 41 < 2 ^ 41 := Nat.mod_lt t (Nat.two_pow_pos 41)
  have hms : (t % 2 ^ 41) * 2 ^ 22 + sid % 2 ^ 22 < 2 ^ 63 := by
    have : (t % 2 ^ 41) * 2 ^ 22 ≤ (2 ^ 41 - 1) * 2 ^ 22 :=
      Nat.mul_le_mul_right _ (by omega)
    omega
  have hhi0 : 2 ^ 63 * (sid / 2 ^ 63) % 2 ^ 63 = 0 := Nat.mul_mod_right _ _
  calc (2 ^ 63 * (sid / 2 ^ 63) + sid % 2 ^ 22) ||| (t % 2 ^ 41) * 2 ^ 22
      = (2 ^ 63 * (sid / 2 ^ 63) ||| sid % 2 ^ 22) ||| (t % 2 ^ 41) * 2 ^ 22 := by
        rw [or_disjoint_add _ _ 22 hhi hlo]
    _ = 2 ^ 63 * (sid / 2 ^ 63) ||| ((t % 2 ^ 41) * 2 ^ 22 ||| sid % 2 ^ 22) := by
        rw [Nat.or_assoc, Nat.or_comm (sid % 2 ^ 22) _]
    _ = 2 ^ 63 * (sid / 2 ^ 63) ||| ((t % 2 ^ 41) * 2 ^ 22 + sid % 2 ^ 22) := by
        rw [or_disjoint_add _ _ 22 hmid0 hlo]
    _ = 2 ^ 63 * (sid / 2 ^ 63) + ((t % 2 ^ 41) * 2 ^ 22 + sid % 2 ^ 22) := by
        rw [or_disjoint_add _ _ 63 hhi0 hms]
    _ = 2 ^ 63 * (sid / 2 ^ 63) + (t % 2 ^ 41) * 2 ^ 22 + sid % 2 ^ 22 := by
        rw [Nat.add_assoc]

/-- Arithmetic characterisation of fill_identifier on a 64-bit word: bits
63-22 and 11-0 of sid survive, bits 21-12 are replaced by the truncated
identifier. -/
theorem fill_identifier_char (sid i : Nat) (h : sid < 2 ^ 64) :
    fill_identifier sid i =
      2 ^ 22 * (sid / 2 ^ 22) + (i % 2 ^ 10) * 2 ^ 12 + sid % 2 ^ 12 := by
  unfold fill_identifier
  rw [and_comp_mid sid 12 10 h (by norm_num)]
  rw [Nat.and_pow_two_sub_one_eq_mod, Nat.shiftLeft_eq]
  simp only [Nat.reduceAdd]
  have hhi : 2 ^ 22 * (sid / 2 ^ 22) % 2 ^ 12 = 0 := by
    have e : (2 : Nat) ^ 22 = 2 ^ 12 * 2 ^ 10 := by norm_num
    rw [e, Nat.mul_assoc]
    exact Nat.mul_mod_right _ _
  have hlo : sid % 2 ^ 12 < 2 ^ 12 := Nat.mod_lt sid (Nat.two_pow_pos 12)
  have hmid0 : (i % 2 ^ 10) * 2 ^ 12 % 2 ^ 12 = 0 := Nat.mul_mod_left _ _
  have hmi : i % 2 ^ 10 < 2 ^ 10 := Nat.mod_lt i (Nat.two_pow_pos 10)
  have hms : (i % 2 ^ 10) * 2 ^ 12 + sid % 2 ^ 12 < 2 ^ 22 := by omega
  have hhi0 : 2 ^ 22 * (sid / 2 ^ 22) % 2 ^ 22 = 0 := Nat.mul_mod_right _ _
  calc (2 ^ 22 * (sid / 2 ^ 22) + sid % 2 ^ 12) ||| (i % 2 ^ 10) * 2 ^ 12
      = (2 ^ 22 * (sid / 2 ^ 22) ||| sid % 2 ^ 12) ||| (i % 2 ^ 10) * 2 ^ 12 := by
        rw [or_disjoint_add _ _ 12 hhi hlo]
    _ = 2 ^ 22 * (sid / 2 ^ 22) ||| ((i % 2 ^ 10) * 2 ^ 12 ||| sid % 2 ^ 12) := by
        rw [Nat.or_assoc, Nat.or_comm (sid % 2 ^ 12) _]
    _ = 2 ^ 22 * (sid / 2 ^ 22) ||| ((i % 2 ^ 10) * 2 ^ 12 + sid % 2 ^ 12) := by
        rw [or_disjoint_add _ _ 12 hmid0 hlo]
    _ = 2 ^ 22 * (sid / 2 ^ 22) + ((i % 2 ^ 10) * 2 ^ 12 + sid % 2 ^ 12) := by
        rw [or_disjoint_add _ _ 22 hhi0 hms]
    _ = 2 ^ 22 * (sid / 2 ^ 22) + (i % 2 ^ 10) * 2 ^ 12 + sid % 2 ^ 12 := by
        rw [Nat.add_assoc]

/-- Arithmetic characterisation of fill_sequence on a 64-bit word: bits
63-12 of sid survive, bits 11-0 are replaced by the truncated sequence. -/
theorem fill_sequence_char (sid s : Nat) (h : sid < 2 ^ 64) :
    fill_sequence sid s = 2 ^ 12 * (sid / 2 ^ 12) + s % 2 ^ 12 := by
  unfold fill_sequence
  rw [show ((2 : Nat) ^ 64 - 1) ^^^ (2 ^ 12 - 1) =
    (2 ^ 64 - 1) ^^^ ((2 ^ 12 - 1) <<< 0) from by rw [Nat.shiftLeft_zero]]
  rw [and_comp_mid sid 0 12 h (by norm_num)]
  rw [Nat.and_pow_two_sub_one_eq_mod]
  simp only [Nat.zero_add, Nat.pow_zero, Nat.mod_one, Nat.add_zero]
  have hhi0 : 2 ^ 12 * (sid / 2 ^ 12) % 2 ^ 12 = 0 := Nat.mul_mod_right _ _
  have hlo : s % 2 ^ 12 < 2 ^ 12 := Nat.mod_lt s (Nat.two_pow_pos 12)
  exact or_disjoint_add _ _ 12 hhi0 hlo

/-- Packing a fresh word from zero in timestamp, identifier, sequence order
yields the sum of the three shifted truncated fields. -/
theorem filling_zero_char (t i s : Nat) :
    filling 0 t i s =
      (t % 2 ^ 41) * 2 ^ 22 + (i % 2 ^ 10) * 2 ^ 12 + s % 2 ^ 12 := by
  unfold filling
  have hm41 : t % 2 ^ 41 < 2 ^ 41 := Nat.mod_lt t (Nat.two_pow_pos 41)
  have hm10 : i % 2 ^ 10 < 2 ^ 10 := Nat.mod_lt i (Nat.two_pow_pos 10)
  have h0 : fill_timestamp 0 t = (t % 2 ^ 41) * 2 ^ 22 := by
    rw [fill_timestamp_char 0 t (by norm_num)]
    simp
  rw [h0]
  have h1 : (t % 2 ^ 41) * 2 ^ 22 < 2 ^ 64 := by omega
  rw [fill_identifier_char _ i h1]
  have h2 : 2 ^ 22 * ((t % 2 ^ 41) * 2 ^ 22 / 2 ^ 22) + (i % 2 ^ 10) * 2 ^ 12 +
      (t % 2 ^ 41) * 2 ^ 22 % 2 ^ 12 =
      (t % 2 ^ 41) * 2 ^ 22 + (i % 2 ^ 10) * 2 ^ 12 := by omega
  rw [h2]
  have h3 : (t % 2 ^ 41) * 2 ^ 22 + (i % 2 ^ 10) * 2 ^ 12 < 2 ^ 64 := by omega
  rw [fill_sequence_char _ s h3]
  omega

/-- The Snowflake value built inside assign is exactly filling from zero. -/
theorem assign_sid_char (identifier now seq : Nat) :
    fill_sequence (fill_identifier (fill_timestamp 0 now) identifier) seq =
      (now % 2 ^ 41) * 2 ^ 22 + (identifier % 2 ^ 10) * 2 ^ 12 +
        seq % 2 ^ 12 := by
  have h := filling_zero_char now identifier seq
  unfold filling at h
  exact h

/-- Full arithmetic characterisation of one assign iteration in terms of
division and remainder by powers of two. -/
theorem assignIter_char (identifier state now : Nat) :
    assignIter identifier state now =
      if state / 2 ^ 16 < now then
        AssignOutcome.committed ((now % 2 ^ 48) * 2 ^ 16)
          ((now % 2 ^ 41) * 2 ^ 22 + (identifier % 2 ^ 10) * 2 ^ 12)
      else if state / 2 ^ 16 = now then
        if 4095 ≤ state % 2 ^ 16 then AssignOutcome.wait
        else
          AssignOutcome.committed
            ((now % 2 ^ 48) * 2 ^ 16 + (state % 2 ^ 16 + 1))
            ((now % 2 ^ 41) * 2 ^ 22 + (identifier % 2 ^ 10) * 2 ^ 12 +
              (state % 2 ^ 16 + 1) % 2 ^ 12)
      else AssignOutcome.wait := by
  have hsr : state >>> 16 = state / 2 ^ 16 := Nat.shiftRight_eq_div_pow state 16
  have hsl : now <<< 16 = now * 2 ^ 16 := Nat.shiftLeft_eq now 16
  have hand : state &&& 0xFFFF = state % 2 ^ 16 := by
    have e : (0xFFFF : Nat) = 2 ^ 16 - 1 := by norm_num
    rw [e, Nat.and_pow_two_sub_one_eq_mod]
  unfold assignIter MAX_SEQUENCE
  simp only [hsr, hsl, hand, assign_sid_char]
  by_cases h1 : state / 2 ^ 16 < now
  · simp only [if_pos h1]
    have e1 : (now * 2 ^ 16) % 2 ^ 64 = (now % 2 ^ 48) * 2 ^ 16 := by omega
    have e2 : (now % 2 ^ 41) * 2 ^ 22 + (identifier % 2 ^ 10) * 2 ^ 12 +
        0 % 2 ^ 12 =
        (now % 2 ^ 41) * 2 ^ 22 + (identifier % 2 ^ 10) * 2 ^ 12 := by omega
    rw [e1, e2]
  · simp only [if_neg h1]
    by_cases h2 : state / 2 ^ 16 = now
    · simp only [if_pos h2]
      by_cases h3 : 4095 ≤ state % 2 ^ 16
      · simp only [if_pos h3]
      · simp only [if_neg h3]
        have hq : state % 2 ^ 16 + 1 < 2 ^ 16 := by omega
        have hA : (now * 2 ^ 16) % 2 ^ 64 % 2 ^ 16 = 0 := by omega
        rw [or_disjoint_add _ _ 16 hA hq]
        have e1 : (now * 2 ^ 16) % 2 ^ 64 = (now % 2 ^ 48) * 2 ^ 16 := by omega
        rw [e1]
    · simp only [if_neg h2]

/-- A state word is good when its stored timestamp fits the 41-bit ID field
and its stored sequence is within the meaningful 0-4095 range. -/
def GoodState (state : Nat) : Prop :=
  state / 2 ^ 16 < 2 ^ 41 ∧ state % 2 ^ 16 ≤ 4095

/-- The Snowflake value returned by the commit that leaves the generator in
state word `state` (valid whenever the committing timestamp fits 41 bits). -/
def stateSid (identifier state : Nat) : Nat :=
  state / 2 ^ 16 * 2 ^ 22 + (identifier % 2 ^ 10) * 2 ^ 12 + state % 2 ^ 16

/-- Shape of every Snowflake value issued while provider timestamps fit the
41-bit field: packed timestamp, configured identifier, sequence. -/
def SidShape (identifier sid : Nat) : Prop :=
  ∃ ts seq, ts < 2 ^ 41 ∧ seq ≤ 4095 ∧
    sid = ts * 2 ^ 22 + (identifier % 2 ^ 10) * 2 ^ 12 + seq

/-- Extracting each field of a packed in-range Snowflake value by the
inverse shift and mask. -/
theorem sid_fields (ts c q : Nat) (h1 : ts < 2 ^ 41) (h2 : c < 2 ^ 10)
    (h3 : q < 2 ^ 12) :
    ((ts * 2 ^ 22 + c * 2 ^ 12 + q) >>> 22) &&& (2 ^ 41 - 1) = ts ∧
    ((ts * 2 ^ 22 + c * 2 ^ 12 + q) >>> 12) &&& (2 ^ 10 - 1) = c ∧
    (ts * 2 ^ 22 + c * 2 ^ 12 + q) &&& (2 ^ 12 - 1) = q := by
  rw [Nat.shiftRight_eq_div_pow, Nat.shiftRight_eq_div_pow,
    Nat.and_pow_two_sub_one_eq_mod, Nat.and_pow_two_sub_one_eq_mod,
    Nat.and_pow_two_sub_one_eq_mod]
  omega

/-- The commit value is strictly monotone in the state word over good
states. -/
theorem stateSid_lt (identifier a b : Nat) (ha : GoodState a)
    (hb : GoodState b) (hab : a < b) :
    stateSid identifier a < stateSid identifier b := by
  unfold GoodState at ha hb
  unfold stateSid
  omega

/-- One committed iteration from a good state under a 41-bit provider
timestamp reaches a good state, strictly increases the state word, and
returns exactly the commit value of the new state. -/
theorem step_good (identifier s now s2 sid : Nat) (hg : GoodState s)
    (hn : now < 2 ^ 41)
    (hc : assignIter identifier s now = AssignOutcome.committed s2 sid) :
    GoodState s2 ∧ s < s2 ∧ sid = stateSid identifier s2 := by
  rw [assignIter_char] at hc
  unfold GoodState at hg
  unfold GoodState stateSid
  by_cases h1 : s / 2 ^ 16 < now
  · rw [if_pos h1] at hc
    simp only [AssignOutcome.committed.injEq] at hc
    obtain ⟨rfl, rfl⟩ := hc
    omega
  · rw [if_neg h1] at hc
    by_cases h2 : s / 2 ^ 16 = now
    · rw [if_pos h2] at hc
      by_cases h3 : 4095 ≤ s % 2 ^ 16
      · rw [if_pos h3] at hc
        simp at hc
      · rw [if_neg h3] at hc
        simp only [AssignOutcome.committed.injEq] at hc
        obtain ⟨rfl, rfl⟩ := hc
        omega
    · rw [if_neg h2] at hc
      simp at hc

/-- Main run invariant: a sequence of completed assigns from a good state,
all provider timestamps fitting 41 bits, ends in a good state, issues a
strictly increasing chain of Snowflake values dominated by the start state,
and every issued value has the packed field shape. -/
theorem runAssigns_chain (identifier : Nat) (nows : List Nat) :
    ∀ s sf : Nat, ∀ sids : List Nat, GoodState s →
      (∀ n ∈ nows, n < 2 ^ 41) →
      runAssigns identifier s nows = some (sf, sids) →
      GoodState sf ∧
        List.Chain (fun A B => A < B) (stateSid identifier s) sids ∧
        ∀ x ∈ sids, SidShape identifier x := by
  induction nows with
  | nil =>
    intro s sf sids hg hb hr
    simp only [runAssigns, Option.some.injEq, Prod.mk.injEq] at hr
    obtain ⟨rfl, rfl⟩ := hr
    exact ⟨hg, List.Chain.nil, by simp⟩
  | cons now rest ih =>
    intro s sf sids hg hb hr
    simp only [runAssigns] at hr
    cases hca : assignIter identifier s now with
    | wait =>
      simp only [hca] at hr
      exact Option.noConfusion hr
    | committed s2 sid =>
      simp only [hca] at hr
      cases hrr : runAssigns identifier s2 rest with
      | none =>
        simp only [hrr] at hr
        exact Option.noConfusion hr
      | some p =>
        obtain ⟨sf2, sids2⟩ := p
        simp only [hrr, Option.some.injEq, Prod.mk.injEq] at hr
        obtain ⟨rfl, rfl⟩ := hr
        obtain ⟨hg2, hlt, hsid⟩ :=
          step_good identifier s now s2 sid hg (hb now (by simp)) hca
        obtain ⟨hgf, hchain, hshape⟩ :=
          ih s2 sf2 sids2 hg2 (fun n hn => hb n (by simp [hn])) hrr
        refine ⟨hgf, ?_, ?_⟩
        · apply List.Chain.cons
          · rw [hsid]
            exact stateSid_lt identifier s s2 hg hg2 hlt
          · rw [hsid]
            exact hchain
        · intro x hx
          rcases List.mem_cons.mp hx with hx1 | hx2
          · subst hx1
            rw [hsid]
            exact ⟨s2 / 2 ^ 16, s2 % 2 ^ 16, hg2.1, hg2.2, rfl⟩
          · exact hshape x hx2

/-- Anding with the literal mask 0xFFFF (as in current & 0xFFFF) is the
remainder modulo 2 ^ 16. -/
theorem and_ffff (x : Nat) : x &&& 0xFFFF = x % 2 ^ 16 := by
  have e : (0xFFFF : Nat) = 2 ^ 16 - 1 := by norm_num
  rw [e, Nat.and_pow_two_sub_one_eq_mod]

/-! Claim theorems. -/

/-- C6: for every triple (t, i, s) of 64-bit values, extracting each field
of filling(0, t, i, s) by the inverse shift-and-mask returns the truncated
input: bits 62-22 equal t & ((1<<41)-1), bits 21-12 equal i & ((1<<10)-1),
and bits 11-0 equal s & ((1<<12)-1).  Proved for all naturals, which covers
all 64-bit values. -/
theorem filling_roundtrip (t i s : Nat) :
    (filling 0 t i s >>> 22) &&& (2 ^ 41 - 1) = t &&& (2 ^ 41 - 1) ∧
    (filling 0 t i s >>> 12) &&& (2 ^ 10 - 1) = i &&& (2 ^ 10 - 1) ∧
    filling 0 t i s &&& (2 ^ 12 - 1) = s &&& (2 ^ 12 - 1) := by
  rw [filling_zero_char, Nat.shiftRight_eq_div_pow, Nat.shiftRight_eq_div_pow]
  simp only [Nat.and_pow_two_sub_one_eq_mod]
  omega

/-- C7: fill_timestamp leaves bit 63 and bits 21-0 of the word unchanged,
fill_identifier leaves bits 63-22 and 11-0 unchanged, and fill_sequence
leaves bits 63-12 unchanged (a bit range n..m is rendered as the value's
quotient and remainder by the corresponding powers of two); in particular
filling the timestamp field and then re-filling the disjoint identifier
field leaves the timestamp bits 62-22 unchanged. -/
theorem fill_frame (w v v2 : Nat) (hw : w < 2 ^ 64) :
    fill_timestamp w v / 2 ^ 63 = w / 2 ^ 63 ∧
    fill_timestamp w v % 2 ^ 22 = w % 2 ^ 22 ∧
    fill_identifier w v / 2 ^ 22 = w / 2 ^ 22 ∧
    fill_identifier w v % 2 ^ 12 = w % 2 ^ 12 ∧
    fill_sequence w v / 2 ^ 12 = w / 2 ^ 12 ∧
    fill_identifier (fill_timestamp w v) v2 / 2 ^ 22 % 2 ^ 41 =
      fill_timestamp w v / 2 ^ 22 % 2 ^ 41 := by
  have h1 := fill_timestamp_char w v hw
  have hft : fill_timestamp w v < 2 ^ 64 := by rw [h1]; omega
  have h4 := fill_identifier_char (fill_timestamp w v) v2 hft
  rw [h4, h1, fill_identifier_char w v hw, fill_sequence_char w v hw]
  omega

/-- Witness for C7 at w = 6, v = 3, v2 = 9. -/
theorem fill_frame_witness : fill_timestamp 6 3 % 2 ^ 22 = 6 % 2 ^ 22 :=
  (fill_frame 6 3 9 (by norm_num)).2.1

/-- C8: configuring any identifier value produces exactly the behaviour of
that identifier reduced mod 1024: fill_identifier keeps only the low 10
bits, silently and without any error path, and every assign iteration
yields an identical outcome (state word and ID) under the reduced
identifier. -/
theorem identifier_mod_1024 (identifier state now sid0 : Nat) :
    fill_identifier sid0 identifier =
      fill_identifier sid0 (identifier % 1024) ∧
    assignIter identifier state now =
      assignIter (identifier % 1024) state now := by
  have hfid : ∀ x : Nat, fill_identifier x (identifier % 1024) =
      fill_identifier x identifier := by
    intro x
    unfold fill_identifier
    have e : identifier % 1024 &&& (2 ^ 10 - 1) =
        identifier &&& (2 ^ 10 - 1) := by
      rw [Nat.and_pow_two_sub_one_eq_mod, Nat.and_pow_two_sub_one_eq_mod]
      omega
    rw [e]
  constructor
  · exact (hfid sid0).symm
  · unfold assignIter
    rw [hfid]

/-- C3: in the same-millisecond branch (stored timestamp equal to now):
with the stored sequence at least 4095 the iteration waits without
attempting any CAS, and a call under the later timestamp now+1 then commits
with sequence reset to 0; otherwise a successful CAS commits the word
holding (now, cur_seq + 1) and the call returns an ID whose sequence field
is cur_seq + 1.  Moreover every committed ID carries a sequence field of at
most 4095, so one timestamp value offers only the 4096 sequences 0..4095. -/
theorem same_millisecond_behaviour (identifier state now : Nat)
    (hts : state >>> 16 = now) (h64 : state < 2 ^ 64) :
    (4095 ≤ state &&& 0xFFFF →
      assignIter identifier state now = AssignOutcome.wait ∧
      ∃ sid, assignIter identifier state (now + 1) =
          AssignOutcome.committed (((now + 1) <<< 16) % 2 ^ 64) sid ∧
        sid &&& (2 ^ 12 - 1) = 0 ∧
        (sid >>> 22) &&& (2 ^ 41 - 1) = (now + 1) % 2 ^ 41) ∧
    (state &&& 0xFFFF < 4095 →
      ∃ sid, assignIter identifier state now =
          AssignOutcome.committed
            (((now <<< 16) % 2 ^ 64) ||| ((state &&& 0xFFFF) + 1)) sid ∧
        (((now <<< 16) % 2 ^ 64) ||| ((state &&& 0xFFFF) + 1)) >>> 16 = now ∧
        (((now <<< 16) % 2 ^ 64) ||| ((state &&& 0xFFFF) + 1)) &&& 0xFFFF =
          (state &&& 0xFFFF) + 1 ∧
        sid &&& (2 ^ 12 - 1) = (state &&& 0xFFFF) + 1) ∧
    (∀ s3 n3 s4 sid3,
      assignIter identifier s3 n3 = AssignOutcome.committed s4 sid3 →
      sid3 &&& (2 ^ 12 - 1) ≤ 4095) := by
  have hc10 : identifier % 2 ^ 10 < 2 ^ 10 :=
    Nat.mod_lt identifier (Nat.two_pow_pos 10)
  rw [Nat.shiftRight_eq_div_pow] at hts
  have hnlt : ¬ state / 2 ^ 16 < now := by omega
  refine ⟨?_, ?_, ?_⟩
  · intro hq
    rw [and_ffff] at hq
    have hx : 4095 ≤ state % 2 ^ 16 := hq
    have hlt1 : state / 2 ^ 16 < now + 1 := by omega
    constructor
    · rw [assignIter_char, if_neg hnlt, if_pos hts, if_pos hx]
    · refine ⟨(now + 1) % 2 ^ 41 * 2 ^ 22 + identifier % 2 ^ 10 * 2 ^ 12,
        ?_, ?_, ?_⟩
      · have est : ((now + 1) <<< 16) % 2 ^ 64 = (now + 1) % 2 ^ 48 * 2 ^ 16 := by
          rw [Nat.shiftLeft_eq]
          omega
        rw [assignIter_char, if_pos hlt1, est]
      · rw [Nat.and_pow_two_sub_one_eq_mod]
        omega
      · rw [Nat.shiftRight_eq_div_pow, Nat.and_pow_two_sub_one_eq_mod]
        omega
  · intro hq
    rw [and_ffff] at hq
    simp only [and_ffff]
    have hnx : ¬ 4095 ≤ state % 2 ^ 16 := by omega
    have hor : ((now <<< 16) % 2 ^ 64) ||| (state % 2 ^ 16 + 1) =
        now % 2 ^ 48 * 2 ^ 16 + (state % 2 ^ 16 + 1) := by
      rw [Nat.shiftLeft_eq]
      have hm0 : now * 2 ^ 16 % 2 ^ 64 % 2 ^ 16 = 0 := by omega
      have hm1 : state % 2 ^ 16 + 1 < 2 ^ 16 := by omega
      rw [or_disjoint_add _ _ 16 hm0 hm1]
      omega
    refine ⟨now % 2 ^ 41 * 2 ^ 22 + identifier % 2 ^ 10 * 2 ^ 12 +
      (state % 2 ^ 16 + 1) % 2 ^ 12, ?_, ?_, ?_, ?_⟩
    · rw [assignIter_char, if_neg hnlt, if_pos hts, if_neg hnx, hor]
    · rw [hor, Nat.shiftRight_eq_div_pow]
      omega
    · rw [hor]
      omega
    · rw [Nat.and_pow_two_sub_one_eq_mod]
      omega
  · intro s3 n3 s4 sid3 hc3
    rw [assignIter_char] at hc3
    rw [Nat.and_pow_two_sub_one_eq_mod]
    by_cases b1 : s3 / 2 ^ 16 < n3
    · rw [if_pos b1] at hc3
      simp only [AssignOutcome.committed.injEq] at hc3
      obtain ⟨-, rfl⟩ := hc3
      omega
    · rw [if_neg b1] at hc3
      by_cases b2 : s3 / 2 ^ 16 = n3
      · rw [if_pos b2] at hc3
        by_cases b3 : 4095 ≤ s3 % 2 ^ 16
        · rw [if_pos b3] at hc3
          exact AssignOutcome.noConfusion hc3
        · rw [if_neg b3] at hc3
          simp only [AssignOutcome.committed.injEq] at hc3
          obtain ⟨-, rfl⟩ := hc3
          omega
      · rw [if_neg b2] at hc3
        exact AssignOutcome.noConfusion hc3

/-- Witness for C3 at state 135167 (stored timestamp 2, stored sequence
4095) and now = 2: the exhausted iteration waits. -/
theorem same_millisecond_behaviour_witness :
    assignIter 0 135167 2 = AssignOutcome.wait :=
  (((same_millisecond_behaviour 0 135167 2 (by decide) (by decide)).1)
    (by decide)).1

/-- C4 counterexample: from state 0 with now = 2^48 the clock-advanced
branch commits the state word 0, whose stored timestamp field is 0, not
now: the stored timestamp is now truncated to 48 bits, not now itself. -/
theorem clock_advanced_cex :
    assignIter 0 0 (2 ^ 48) = AssignOutcome.committed 0 0 ∧
    (0 : Nat) >>> 16 ≠ 2 ^ 48 := ⟨by decide, by decide⟩

/-- C4 (amended): in the clock-advanced branch (stored timestamp strictly
below now) the commit stores the word whose timestamp field is now
truncated to 48 bits and whose sequence field is 0, and the returned ID has
timestamp field now truncated to 41 bits, identifier field the configured
identifier truncated to 10 bits, and sequence field 0. -/
theorem clock_advanced_commit (identifier state now : Nat)
    (h : state >>> 16 < now) :
    ∃ sid, assignIter identifier state now =
        AssignOutcome.committed ((now <<< 16) % 2 ^ 64) sid ∧
      ((now <<< 16) % 2 ^ 64) >>> 16 = now % 2 ^ 48 ∧
      ((now <<< 16) % 2 ^ 64) &&& 0xFFFF = 0 ∧
      (sid >>> 22) &&& (2 ^ 41 - 1) = now % 2 ^ 41 ∧
      (sid >>> 12) &&& (2 ^ 10 - 1) = identifier % 2 ^ 10 ∧
      sid &&& (2 ^ 12 - 1) = 0 := by
  have hc10 : identifier % 2 ^ 10 < 2 ^ 10 :=
    Nat.mod_lt identifier (Nat.two_pow_pos 10)
  rw [Nat.shiftRight_eq_div_pow] at h
  have est : (now <<< 16) % 2 ^ 64 = now % 2 ^ 48 * 2 ^ 16 := by
    rw [Nat.shiftLeft_eq]
    omega
  refine ⟨now % 2 ^ 41 * 2 ^ 22 + identifier % 2 ^ 10 * 2 ^ 12,
    ?_, ?_, ?_, ?_, ?_, ?_⟩
  · rw [assignIter_char, if_pos h, est]
  · rw [Nat.shiftLeft_eq, Nat.shiftRight_eq_div_pow]
    omega
  · rw [Nat.shiftLeft_eq, and_ffff]
    omega
  · rw [Nat.shiftRight_eq_div_pow, Nat.and_pow_two_sub_one_eq_mod]
    omega
  · rw [Nat.shiftRight_eq_div_pow, Nat.and_pow_two_sub_one_eq_mod]
    omega
  · rw [Nat.and_pow_two_sub_one_eq_mod]
    omega

/-- Witness for C4 (amended) at identifier 1, state 0, now 1. -/
theorem clock_advanced_commit_witness :
    ∃ sid, assignIter 1 0 1 =
        AssignOutcome.committed ((1 <<< 16) % 2 ^ 64) sid ∧
      ((1 <<< 16) % 2 ^ 64) >>> 16 = 1 % 2 ^ 48 ∧
      ((1 <<< 16) % 2 ^ 64) &&& 0xFFFF = 0 ∧
      (sid >>> 22) &&& (2 ^ 41 - 1) = 1 % 2 ^ 41 ∧
      (sid >>> 12) &&& (2 ^ 10 - 1) = 1 % 2 ^ 10 ∧
      sid &&& (2 ^ 12 - 1) = 0 :=
  clock_advanced_commit 1 0 1 (by decide)

/-- C5 counterexample: after committing timestamp 5, an iteration seeing
now = 2^41 commits and returns the ID 0, whose 41-bit timestamp field 0 is
less than the stored last committed timestamp 5: the literal never-property
over the truncated ID field fails for timestamps at or above 2^41. -/
theorem never_decreasing_cex :
    assignIter 0 0 5 = AssignOutcome.committed (5 <<< 16) (5 <<< 22) ∧
    assignIter 0 (5 <<< 16) (2 ^ 41) =
      AssignOutcome.committed ((2 ^ 41 <<< 16) % 2 ^ 64) 0 ∧
    ((0 : Nat) >>> 22) &&& (2 ^ 41 - 1) < (5 <<< 16) >>> 16 :=
  ⟨by decide, by decide, by decide⟩

/-- C5 (amended): when the stored timestamp strictly exceeds the provider
timestamp the iteration waits, attempting no CAS and leaving the state
untouched; and every committed iteration has stored-timestamp ≤ now, so the
generator never commits an ID from a provider timestamp below the stored
last-committed timestamp (the committed timestamp truncated to 48 bits). -/
theorem clock_regression_stall (identifier state now : Nat) :
    (now < state >>> 16 →
      assignIter identifier state now = AssignOutcome.wait) ∧
    (∀ s2 sid,
      assignIter identifier state now = AssignOutcome.committed s2 sid →
      state >>> 16 ≤ now) := by
  rw [Nat.shiftRight_eq_div_pow]
  constructor
  · intro h
    have h1 : ¬ state / 2 ^ 16 < now := by omega
    have h2 : ¬ state / 2 ^ 16 = now := by omega
    rw [assignIter_char, if_neg h1, if_neg h2]
  · intro s2 sid hc
    by_cases h : state / 2 ^ 16 ≤ now
    · exact h
    · exfalso
      have h1 : ¬ state / 2 ^ 16 < now := by omega
      have h2 : ¬ state / 2 ^ 16 = now := by omega
      rw [assignIter_char, if_neg h1, if_neg h2] at hc
      exact AssignOutcome.noConfusion hc

/-- Witness for C5 (amended): a regressed clock waits, and a committing
iteration indeed has stored timestamp at most now. -/
theorem clock_regression_stall_witness :
    assignIter 0 (9 <<< 16) 4 = AssignOutcome.wait ∧
    ((7 : Nat) <<< 16) >>> 16 ≤ 7 :=
  ⟨(clock_regression_stall 0 (9 <<< 16) 4).1 (by decide),
   (clock_regression_stall 0 (7 <<< 16) 7).2 458753 29360129 (by decide)⟩

/-- C9: every state value ever committed to timestamp_sequence, starting
from the initial word 0, keeps its low 16 bits at most 4095: the stored
sequence never enters the reserved range 4096-65535, since the
clock-advanced branch writes sequence 0 and the same-millisecond branch
only writes cur_seq + 1 when cur_seq < 4095. -/
theorem reachable_low_bits (identifier s : Nat)
    (h : Reachable identifier s) : s &&& 0xFFFF ≤ 4095 := by
  induction h with
  | init => decide
  | @step s now s2 sid hr hn hc ih =>
    rw [and_ffff] at ih ⊢
    rw [assignIter_char] at hc
    by_cases b1 : s / 2 ^ 16 < now
    · rw [if_pos b1] at hc
      simp only [AssignOutcome.committed.injEq] at hc
      obtain ⟨rfl, -⟩ := hc
      omega
    · rw [if_neg b1] at hc
      by_cases b2 : s / 2 ^ 16 = now
      · rw [if_pos b2] at hc
        by_cases b3 : 4095 ≤ s % 2 ^ 16
        · rw [if_pos b3] at hc
          exact AssignOutcome.noConfusion hc
        · rw [if_neg b3] at hc
          simp only [AssignOutcome.committed.injEq] at hc
          obtain ⟨rfl, -⟩ := hc
          omega
      · rw [if_neg b2] at hc
        exact AssignOutcome.noConfusion hc

/-- Witness for C9: the initial state 0 is reachable and satisfies the
bound. -/
theorem reachable_low_bits_witness : (0 : Nat) &&& 0xFFFF ≤ 4095 :=
  reachable_low_bits 0 0 Reachable.init

/-- C10: with a provider timestamp now at or above 2^48 (and ahead of the
stored timestamp), the clock-advanced commit stores only now mod 2^48,
which is again strictly below now, so an immediately following assign
observing the same now takes the clock-advanced branch again and commits
the identical state word and the identical ID with sequence field 0. -/
theorem large_timestamp_truncation (identifier state now : Nat)
    (h : state >>> 16 < now) (h48 : 2 ^ 48 ≤ now) (h64 : now < 2 ^ 64) :
    ∃ s2 sid,
      assignIter identifier state now = AssignOutcome.committed s2 sid ∧
      s2 >>> 16 = now % 2 ^ 48 ∧ s2 >>> 16 < now ∧
      assignIter identifier s2 now = AssignOutcome.committed s2 sid ∧
      sid &&& (2 ^ 12 - 1) = 0 := by
  have hc10 : identifier % 2 ^ 10 < 2 ^ 10 :=
    Nat.mod_lt identifier (Nat.two_pow_pos 10)
  rw [Nat.shiftRight_eq_div_pow] at h
  refine ⟨now % 2 ^ 48 * 2 ^ 16,
    now % 2 ^ 41 * 2 ^ 22 + identifier % 2 ^ 10 * 2 ^ 12,
    ?_, ?_, ?_, ?_, ?_⟩
  · rw [assignIter_char, if_pos h]
  · rw [Nat.shiftRight_eq_div_pow]
    omega
  · rw [Nat.shiftRight_eq_div_pow]
    omega
  · have h2 : now % 2 ^ 48 * 2 ^ 16 / 2 ^ 16 < now := by omega
    rw [assignIter_char, if_pos h2]
  · rw [Nat.and_pow_two_sub_one_eq_mod]
    omega

/-- Witness for C10 at identifier 0, state 0, now = 2^48. -/
theorem large_timestamp_truncation_witness :
    ∃ s2 sid,
      assignIter 0 0 (2 ^ 48) = AssignOutcome.committed s2 sid ∧
      s2 >>> 16 = 2 ^ 48 % 2 ^ 48 ∧ s2 >>> 16 < 2 ^ 48 ∧
      assignIter 0 s2 (2 ^ 48) = AssignOutcome.committed s2 sid ∧
      sid &&& (2 ^ 12 - 1) = 0 :=
  large_timestamp_truncation 0 0 (2 ^ 48) (by decide) (by decide) (by decide)

/-- C1 counterexample: with provider timestamps 5 then 2^41, two
successive completed assigns from the initial state return 20971520 and
then 0: the later ID is numerically smaller than the earlier one, because
the ID keeps only 41 bits of the timestamp while the state keeps 48. -/
theorem monotonic_cex :
    runAssigns 0 0 [5, 2 ^ 41] = some (2 ^ 57, [20971520, 0]) ∧
    ¬ (20971520 : Nat) ≤ 0 := ⟨by decide, by decide⟩

/-- C1 (amended): over any sequence of completed assigns from the initial
state in which every provider timestamp fits the 41-bit timestamp field,
the issued IDs are numerically nondecreasing in issue order, and any two of
them carrying the same 41-bit timestamp field have strictly increasing
sequence fields. -/
theorem run_monotonic (identifier sf : Nat) (nows sids : List Nat)
    (hb : ∀ n ∈ nows, n < 2 ^ 41)
    (hr : runAssigns identifier 0 nows = some (sf, sids)) :
    List.Pairwise (fun A B => A ≤ B ∧
      ((A >>> 22) &&& (2 ^ 41 - 1) = (B >>> 22) &&& (2 ^ 41 - 1) →
        A &&& (2 ^ 12 - 1) < B &&& (2 ^ 12 - 1))) sids := by
  have h0 : GoodState 0 := by
    unfold GoodState
    omega
  obtain ⟨-, hchain, hshape⟩ :=
    runAssigns_chain identifier nows 0 sf sids h0 hb hr
  have hpw : List.Pairwise (fun A B => A < B) sids :=
    (List.chain_iff_pairwise.mp hchain).of_cons
  have hc : identifier % 2 ^ 10 < 2 ^ 10 :=
    Nat.mod_lt identifier (Nat.two_pow_pos 10)
  refine hpw.imp_of_mem ?_
  intro A B hA hB hAB
  obtain ⟨ta, qa, hta, hqa, rfl⟩ := hshape A hA
  obtain ⟨tb, qb, htb, hqb, rfl⟩ := hshape B hB
  obtain ⟨ea1, -, ea3⟩ :=
    sid_fields ta (identifier % 2 ^ 10) qa hta hc (by omega)
  obtain ⟨eb1, -, eb3⟩ :=
    sid_fields tb (identifier % 2 ^ 10) qb htb hc (by omega)
  refine ⟨Nat.le_of_lt hAB, fun hts => ?_⟩
  rw [ea1, eb1] at hts
  rw [ea3, eb3]
  subst hts
  omega

/-- Witness for C1 (amended): identifier 3, provider timestamps 1, 1, 2. -/
theorem run_monotonic_witness :
    List.Pairwise (fun A B => A ≤ B ∧
      ((A >>> 22) &&& (2 ^ 41 - 1) = (B >>> 22) &&& (2 ^ 41 - 1) →
        A &&& (2 ^ 12 - 1) < B &&& (2 ^ 12 - 1)))
      [4206592, 4206593, 8400896] :=
  run_monotonic 3 131072 [1, 1, 2] [4206592, 4206593, 8400896]
    (by decide) (by decide)

/-- C2 counterexample: with the provider stuck at 2^48, two completed
assigns from the initial state both return the ID 0, a duplicate: the
committed word 2^48 << 16 wraps to 0, so the state never advances. -/
theorem distinct_cex :
    runAssigns 0 0 [2 ^ 48, 2 ^ 48] = some (0, [0, 0]) ∧
    ¬ ([0, 0] : List Nat).Nodup := ⟨by decide, by decide⟩

/-- C2 (amended): any number of completed assigns from the initial state
yields pairwise-distinct IDs, provided every provider timestamp fits the
41-bit timestamp field. -/
theorem run_distinct (identifier sf : Nat) (nows sids : List Nat)
    (hb : ∀ n ∈ nows, n < 2 ^ 41)
    (hr : runAssigns identifier 0 nows = some (sf, sids)) :
    sids.Nodup := by
  have h0 : GoodState 0 := by
    unfold GoodState
    omega
  obtain ⟨-, hchain, -⟩ :=
    runAssigns_chain identifier nows 0 sf sids h0 hb hr
  exact ((List.chain_iff_pairwise.mp hchain).of_cons).imp
    (fun hab => Nat.ne_of_lt hab)

/-- Witness for C2 (amended): identifier 0, one assign at timestamp 7. -/
theorem run_distinct_witness : ([29360128] : List Nat).Nodup :=
  run_distinct 0 458752 [7] [29360128] (by decide) (by decide)

end SnowflakeNg
